import Mathlib

/-!
# Verification of the VCS diarization/fusion core

Shallow embedding of the speaker-diarization subsystem of the VCS meeting
recorder: `modules/diarizer.py` (fallback diarization, transcript/diarization
fusion, boundary refinement), `modules/utils.py` (timestamp formatting),
`app.py` together with `modules/platform_integrations.py` (speaker-name
resolution).  Python floats are modelled as exact rationals (`ℚ`); Python
dicts that act as records become Lean structures; a dict `.get(key, default)`
on an optional field becomes `Option.getD`.
-/

namespace VCS

/-- Structure `DiarizationSegment`: one entry of the list returned by
`diarize_audio_file` / `diarize_fallback` in `modules/diarizer.py`
(`{'start': .., 'end': .., 'speaker': .., 'duration': ..}`).
The Python key `end` is a Lean keyword, so it is rendered `stop`. -/
structure DiarizationSegment where
  start : ℚ
  stop : ℚ
  speaker : String
  duration : ℚ
deriving DecidableEq

/-- One word record of a transcript segment (`{'word', 'start', 'end', 'probability'}`). -/
structure Word where
  word : String
  start : ℚ
  stop : ℚ
  probability : ℚ
deriving DecidableEq

/-- Structure `TranscriptSegment`: one entry of `transcript_data['segments']` as consumed by
`merge_transcript_with_diarization`.  The code reads `segment['start']`,
`segment['end']`, `segment['text']` directly and uses
`segment.get('words', [])` and `segment.get('no_speech_prob', 0)`, so the two
latter fields are optional here. -/
structure TranscriptSegment where
  start : ℚ
  stop : ℚ
  text : String
  words : Option (List Word)
  no_speech_prob : Option ℚ
deriving DecidableEq

/-- Structure `MergedSegment`: one entry of the list built by
`merge_transcript_with_diarization` and rewritten by
`refine_speaker_boundaries` (`start`/`end` are the formatted strings,
`start_seconds`/`end_seconds` the raw times).  Python key `end` ↦ `stop`. -/
structure MergedSegment where
  start : String
  stop : String
  start_seconds : ℚ
  end_seconds : ℚ
  speaker : String
  text : String
  words : List Word
  confidence : ℚ
deriving DecidableEq

/-! ## `modules/utils.py`: `format_timestamp_ms` -/

/-- Python's `x % m` on floats (sign follows the modulus; here only used with
positive integer moduli): `x - m * ⌊x / m⌋`. -/
def pyMod (x m : ℚ) : ℚ := x - m * ⌊x / m⌋

/-- Decimal rendering of `n` left-padded with zeros to width `w`
(Python `f"{n:0wd}"` for a natural number). -/
def zeroPadNat (w : Nat) (n : Nat) : String :=
  let s := toString n
  String.mk (List.replicate (w - s.length) '0') ++ s

/-- Python `f"{n:0wd}"` for an integer: the sign, when present, counts
towards the width and precedes the zero padding. -/
def zeroPad (w : Nat) (n : ℤ) : String :=
  if n < 0 then "-" ++ zeroPadNat (w - 1) n.natAbs else zeroPadNat w n.natAbs

/-- Function `format_timestamp_ms` (utils.py lines 57-63).
`hours = int(seconds // 3600)` floors; the three other quantities are
nonnegative (Python `%` with a positive modulus), so their `int(...)`
truncation is also a floor. -/
def format_timestamp_ms (seconds : ℚ) : String :=
  let hours : ℤ := ⌊seconds / 3600⌋
  let minutes : ℤ := ⌊pyMod seconds 3600 / 60⌋
  let secs : ℤ := ⌊pyMod seconds 60⌋
  let milliseconds : ℤ := ⌊pyMod seconds 1 * 1000⌋
  zeroPad 2 hours ++ ":" ++ zeroPad 2 minutes ++ ":" ++ zeroPad 2 secs ++
    "." ++ zeroPad 3 milliseconds

/-! ## `modules/diarizer.py`: fusion -/

/-- The overlap computed inside the loop of `find_speaker_at_time`
(lines 260-263): `max(0, min(end_time, seg.end) - max(start_time, seg.start))`. -/
def overlapAmount (start_time end_time : ℚ) (seg : DiarizationSegment) : ℚ :=
  max 0 (min end_time seg.stop - max start_time seg.start)

/-- One iteration of the `find_speaker_at_time` loop: the accumulator is the
pair `(max_overlap, best_speaker)`; it is replaced exactly when
`overlap > max_overlap`. -/
def bestStep (start_time end_time : ℚ) (acc : ℚ × String) (seg : DiarizationSegment) :
    ℚ × String :=
  let overlap := overlapAmount start_time end_time seg
  if acc.1 < overlap then (overlap, seg.speaker) else acc

/-- Function `find_speaker_at_time` (diarizer.py lines 248-269): returns `"SPEAKER_0"`
on an empty diarization, otherwise runs the loop over the whole list starting
from `max_overlap = 0`, `best_speaker = diarization_data[0]['speaker']`. -/
def find_speaker_at_time (start_time end_time : ℚ)
    (diarization_data : List DiarizationSegment) : String :=
  match diarization_data with
  | [] => "SPEAKER_0"
  | d0 :: rest =>
    ((d0 :: rest).foldl (bestStep start_time end_time) ((0 : ℚ), d0.speaker)).2

/-- Function `merge_transcript_with_diarization` (diarizer.py lines 210-246), taking the
`transcript_data['segments']` list directly.  One output record per input
segment, built exactly as in the loop body. -/
def merge_transcript_with_diarization (transcript_segments : List TranscriptSegment)
    (diarization_data : List DiarizationSegment) : List MergedSegment :=
  transcript_segments.map fun segment =>
    { start := format_timestamp_ms segment.start
      stop := format_timestamp_ms segment.stop
      start_seconds := segment.start
      end_seconds := segment.stop
      speaker := find_speaker_at_time segment.start segment.stop diarization_data
      text := segment.text
      words := segment.words.getD []
      confidence := 1 - segment.no_speech_prob.getD 0 }

/-! ## `modules/diarizer.py`: boundary refinement -/

/-- The in-place merge of `refine_speaker_boundaries` (lines 289-292): the
running segment keeps its own `start`, `start_seconds`, `speaker` and
`confidence`, takes `segment`'s `end`/`end_seconds`, joins the texts with one
space and appends the word lists. -/
def mergeInto (last_segment segment : MergedSegment) : MergedSegment :=
  { last_segment with
    stop := segment.stop
    end_seconds := segment.end_seconds
    text := last_segment.text ++ " " ++ segment.text
    words := last_segment.words ++ segment.words }

/-- The loop of `refine_speaker_boundaries` with the mutable last element of
`refined` made explicit as the accumulator `cur` (the Python list's last cell;
it is flushed when a non-mergeable segment arrives and at the end). -/
def refineAux (min_segment_duration : ℚ) (cur : MergedSegment) :
    List MergedSegment → List MergedSegment
  | [] => [cur]
  | segment :: rest =>
    if segment.speaker = cur.speaker ∧
        segment.start_seconds - cur.end_seconds < min_segment_duration then
      refineAux min_segment_duration (mergeInto cur segment) rest
    else
      cur :: refineAux min_segment_duration segment rest

/-- Function `refine_speaker_boundaries` (diarizer.py lines 271-296); the Python
default for `min_segment_duration` is `0.5`, here always passed explicitly. -/
def refine_speaker_boundaries (merged_segments : List MergedSegment)
    (min_segment_duration : ℚ) : List MergedSegment :=
  match merged_segments with
  | [] => []
  | first :: rest => refineAux min_segment_duration first rest

/-- Predicate on two adjacent refined segments saying the merge test of
`refine_speaker_boundaries` fails for them: different speakers, or separated
by at least the minimum gap. -/
def noMerge (min_segment_duration : ℚ) (u v : MergedSegment) : Prop :=
  ¬ (v.speaker = u.speaker ∧ v.start_seconds - u.end_seconds < min_segment_duration)

/-! ## `modules/diarizer.py`: fallback diarization, dependency-missing branch
and cluster-count heuristic -/

/-- The two `except ImportError` branches of `diarize_fallback`
(lines 117-130): when `pydub` or `librosa`/`sklearn` cannot be imported the
function returns the fixed list `[{'start': 0, 'end': 100, 'speaker':
'SPEAKER_0', 'duration': 100}]` without ever opening the audio file; the
parameter records the duration of that file to express what the result does
(not) depend on. -/
def diarize_fallback_unavailable (_audio_duration : ℚ) : List DiarizationSegment :=
  [{ start := 0, stop := 100, speaker := "SPEAKER_0", duration := 100 }]

/-- The cluster-count computation of `diarize_fallback` (lines 192-196):
`num_speakers = min(5, max(2, len(segments) // 10))` when not supplied, then
`num_speakers = min(num_speakers, len(segments))`. -/
def fallback_num_speakers (num_speakers : Option Nat) (numSegments : Nat) : Nat :=
  let k :=
    match num_speakers with
    | none => min 5 (max 2 (numSegments / 10))
    | some n => n
  min k numSegments

/-- The label-assignment tail of `diarize_fallback` (lines 198-205), with the
surviving speech intervals given as `(start_sec, end_sec)` pairs and
`AgglomerativeClustering(n_clusters).fit_predict` abstracted as the external
function `fit_predict`.  With more than one interval the cluster labels are
zipped onto the intervals; with exactly one interval `segments[0]` is labeled
`SPEAKER_0` and the clusterer is never called. -/
def fallback_assign_speakers (fit_predict : Nat → List (ℚ × ℚ) → List Nat)
    (num_speakers : Nat) (segments : List (ℚ × ℚ)) : List DiarizationSegment :=
  if 1 < segments.length then
    (segments.zip (fit_predict num_speakers segments)).map fun p =>
      { start := p.1.1, stop := p.1.2, speaker := "SPEAKER_" ++ toString p.2,
        duration := p.1.2 - p.1.1 }
  else
    segments.map fun p =>
      { start := p.1, stop := p.2, speaker := "SPEAKER_0", duration := p.2 - p.1 }

/-! ## Speaker-name resolution: `platform_integrations.py` and `app.py` -/

/-- The `SPEAKER_<i> -> name` mapping built from an enumerated name list
(`get_meeting_participants`, platform_integrations.py lines 131-138). -/
def speakerLabelMapping (names : List String) : List (String × String) :=
  names.enum.map fun p => ("SPEAKER_" ++ toString p.1, p.2)

/-- Function `get_meeting_participants` (platform_integrations.py lines 96-141), with
the three external API lookups abstracted by their results (each `[]` when
the source yields nothing) and the manual comma-separated participant string
already split into names.  Each source is used only when all earlier ones
returned an empty mapping. -/
def get_meeting_participants
    (calendarParticipants zoomParticipants teamsParticipants : List (String × String))
    (default_participants : List String) : List (String × String) :=
  if calendarParticipants ≠ [] then calendarParticipants
  else if zoomParticipants ≠ [] then zoomParticipants
  else if teamsParticipants ≠ [] then teamsParticipants
  else if default_participants ≠ [] then speakerLabelMapping default_participants
  else []

/-- The speaker-name resolution of `process_meeting_file` (app.py lines
549-591): source 1 is the bot-capture mapping (guarded by `use_bot_data`,
default on); source 2, tried only when the mapping is still empty, is
`get_meeting_participants`; finally, when the mapping is empty or has fewer
entries than `unique_speakers`, it is rebuilt from scratch from the manual
mapping UI (`manualMapping` stands for the operator's completed entries). -/
def resolve_speaker_mapping (use_bot_data : Bool) (botCapture : List (String × String))
    (calendarParticipants zoomParticipants teamsParticipants : List (String × String))
    (default_participants : List String) (unique_speakers : Nat)
    (manualMapping : List (String × String)) : List (String × String) :=
  let m1 := if use_bot_data then botCapture else []
  let m2 :=
    if m1 = [] then
      get_meeting_participants calendarParticipants zoomParticipants
        teamsParticipants default_participants
    else m1
  if m2 = [] ∨ m2.length < unique_speakers then manualMapping else m2

/-! ## Helper lemmas -/

lemma zeroPad_natCast (w k : ℕ) : zeroPad w ((k : ℕ) : ℤ) = zeroPadNat w k := by
  simp [zeroPad]

lemma overlapAmount_nonneg (s e : ℚ) (d : DiarizationSegment) :
    0 ≤ overlapAmount s e d := le_max_left 0 _

/-- Characterization of the `find_speaker_at_time` loop: starting from the
accumulator `(m, sp)`, either no segment's overlap exceeds `m` and the
accumulator survives unchanged, or the loop returns the overlap and speaker of
the first segment attaining the maximal overlap of the list. -/
lemma foldl_bestStep_spec (s e : ℚ) (ds : List DiarizationSegment) :
    ∀ (m : ℚ) (sp : String),
    (ds.foldl (bestStep s e) (m, sp) = (m, sp) ∧ ∀ d ∈ ds, overlapAmount s e d ≤ m) ∨
    (∃ i : Fin ds.length,
      m < overlapAmount s e (ds.get i) ∧
      ds.foldl (bestStep s e) (m, sp) =
        (overlapAmount s e (ds.get i), (ds.get i).speaker) ∧
      (∀ j : Fin ds.length, (j:ℕ) < (i:ℕ) →
        overlapAmount s e (ds.get j) < overlapAmount s e (ds.get i)) ∧
      (∀ j : Fin ds.length, overlapAmount s e (ds.get j) ≤ overlapAmount s e (ds.get i))) := by
  induction ds with
  | nil => intro m sp; left; exact ⟨rfl, by simp⟩
  | cons d rest ih =>
    intro m sp
    by_cases h : m < overlapAmount s e d
    · -- accumulator updates at the head
      have hstep : bestStep s e (m, sp) d = (overlapAmount s e d, d.speaker) := by
        simp [bestStep, h]
      rcases ih (overlapAmount s e d) d.speaker with ⟨heq, hall⟩ | ⟨i, hlt, heq, hbefore, hmax⟩
      · right
        refine ⟨⟨0, by simp⟩, h, ?_, ?_, ?_⟩
        · simpa [hstep] using heq
        · intro j hj
          simp at hj
        · intro j
          rcases j with ⟨jv, hjv⟩
          cases jv with
          | zero => simp
          | succ k =>
            simpa using hall _ (List.get_mem rest k (by simpa using hjv))
      · right
        refine ⟨⟨(i:ℕ)+1, by simpa using i.isLt⟩, ?_, ?_, ?_, ?_⟩
        · exact lt_trans h hlt
        · simpa [hstep] using heq
        · intro j hj
          rcases j with ⟨jv, hjv⟩
          cases jv with
          | zero => simpa using hlt
          | succ k =>
            have hk : k < (i:ℕ) := by simpa using hj
            simpa using hbefore ⟨k, by simpa using hjv⟩ hk
        · intro j
          rcases j with ⟨jv, hjv⟩
          cases jv with
          | zero => simpa using le_of_lt hlt
          | succ k => simpa using hmax ⟨k, by simpa using hjv⟩
    · -- head does not beat the running maximum
      have hstep : bestStep s e (m, sp) d = (m, sp) := by
        simp [bestStep, h]
      rcases ih m sp with ⟨heq, hall⟩ | ⟨i, hlt, heq, hbefore, hmax⟩
      · left
        refine ⟨by simpa [hstep] using heq, ?_⟩
        intro x hx
        rcases List.mem_cons.1 hx with rfl | hx
        · exact le_of_not_lt h
        · exact hall _ hx
      · right
        refine ⟨⟨(i:ℕ)+1, by simpa using i.isLt⟩, ?_, ?_, ?_, ?_⟩
        · exact hlt
        · simpa [hstep] using heq
        · intro j hj
          rcases j with ⟨jv, hjv⟩
          cases jv with
          | zero => simpa using lt_of_le_of_lt (le_of_not_lt h) hlt
          | succ k =>
            have hk : k < (i:ℕ) := by simpa using hj
            simpa using hbefore ⟨k, by simpa using hjv⟩ hk
        · intro j
          rcases j with ⟨jv, hjv⟩
          cases jv with
          | zero => simpa using le_of_lt (lt_of_le_of_lt (le_of_not_lt h) hlt)
          | succ k => simpa using hmax ⟨k, by simpa using hjv⟩

lemma refineAux_head (g : ℚ) (cur : MergedSegment) (rest : List MergedSegment) :
    ∃ c out, refineAux g cur rest = c :: out ∧ c.speaker = cur.speaker ∧
      c.start_seconds = cur.start_seconds := by
  induction rest generalizing cur with
  | nil => exact ⟨cur, [], rfl, rfl, rfl⟩
  | cons s rest ih =>
    by_cases h : s.speaker = cur.speaker ∧ s.start_seconds - cur.end_seconds < g
    · rw [refineAux, if_pos h]
      obtain ⟨c, out, heq, h1, h2⟩ := ih (mergeInto cur s)
      exact ⟨c, out, heq, h1, h2⟩
    · rw [refineAux, if_neg h]
      exact ⟨cur, refineAux g s rest, rfl, rfl, rfl⟩

lemma refineAux_chain (g : ℚ) (cur : MergedSegment) (rest : List MergedSegment) :
    List.Chain' (noMerge g) (refineAux g cur rest) := by
  induction rest generalizing cur with
  | nil => simp [refineAux]
  | cons s rest ih =>
    by_cases h : s.speaker = cur.speaker ∧ s.start_seconds - cur.end_seconds < g
    · rw [refineAux, if_pos h]
      exact ih (mergeInto cur s)
    · rw [refineAux, if_neg h]
      obtain ⟨c, out, heq, hsp, hst⟩ := refineAux_head g s rest
      rw [heq, List.chain'_cons]
      refine ⟨?_, heq ▸ ih s⟩
      rw [noMerge, hsp, hst]
      exact h

lemma refineAux_of_chain (g : ℚ) (cur : MergedSegment) (rest : List MergedSegment)
    (h : List.Chain' (noMerge g) (cur :: rest)) : refineAux g cur rest = cur :: rest := by
  induction rest generalizing cur with
  | nil => rfl
  | cons s rest ih =>
    rw [List.chain'_cons] at h
    rw [refineAux, if_neg h.1, ih s h.2]

lemma intercalate_go_cons (acc s a : String) (l : List String) :
    String.intercalate.go acc s (a :: l) = String.intercalate.go (acc ++ s ++ a) s l := rfl

lemma intercalate_go_append (s x y : String) (l : List String) :
    String.intercalate.go (x ++ y) s l = x ++ String.intercalate.go y s l := by
  induction l generalizing y with
  | nil => rfl
  | cons a l ih =>
    rw [intercalate_go_cons, intercalate_go_cons]
    have hassoc : x ++ y ++ s ++ a = x ++ (y ++ s ++ a) := by
      simp [String.append_assoc]
    rw [hassoc, ih (y ++ s ++ a)]

lemma intercalate_cons_cons (s a b : String) (l : List String) :
    String.intercalate s (a :: b :: l) = a ++ s ++ String.intercalate s (b :: l) := by
  show String.intercalate.go (a ++ s ++ b) s l = _
  rw [String.append_assoc, intercalate_go_append s a (s ++ b) l]
  show a ++ String.intercalate.go (s ++ b) s l = _
  rw [intercalate_go_append s s b l, ← String.append_assoc]
  rfl

lemma intercalate_glue (sep a b : String) (l : List String) :
    String.intercalate sep ((a ++ sep ++ b) :: l) =
      a ++ sep ++ String.intercalate sep (b :: l) := by
  cases l with
  | nil => rfl
  | cons c l =>
    rw [intercalate_cons_cons, intercalate_cons_cons]
    simp [String.append_assoc]

lemma refineAux_length (g : ℚ) (cur : MergedSegment) (rest : List MergedSegment) :
    (refineAux g cur rest).length ≤ rest.length + 1 := by
  induction rest generalizing cur with
  | nil => simp [refineAux]
  | cons s rest ih =>
    by_cases h : s.speaker = cur.speaker ∧ s.start_seconds - cur.end_seconds < g
    · rw [refineAux, if_pos h]
      exact le_trans (ih (mergeInto cur s)) (by simp)
    · rw [refineAux, if_neg h]
      simpa using Nat.succ_le_succ (ih s)

lemma refineAux_words (g : ℚ) (cur : MergedSegment) (rest : List MergedSegment) :
    ((refineAux g cur rest).map MergedSegment.words).flatten =
      cur.words ++ (rest.map MergedSegment.words).flatten := by
  induction rest generalizing cur with
  | nil => simp [refineAux]
  | cons s rest ih =>
    by_cases h : s.speaker = cur.speaker ∧ s.start_seconds - cur.end_seconds < g
    · rw [refineAux, if_pos h, ih (mergeInto cur s)]
      simp [mergeInto]
    · rw [refineAux, if_neg h]
      simp [ih s]

lemma refineAux_text (g : ℚ) (cur : MergedSegment) (rest : List MergedSegment) :
    String.intercalate " " ((refineAux g cur rest).map MergedSegment.text) =
      String.intercalate " " (cur.text :: rest.map MergedSegment.text) := by
  induction rest generalizing cur with
  | nil => rfl
  | cons s rest ih =>
    by_cases h : s.speaker = cur.speaker ∧ s.start_seconds - cur.end_seconds < g
    · rw [refineAux, if_pos h, ih (mergeInto cur s)]
      show String.intercalate " " ((cur.text ++ " " ++ s.text) :: rest.map MergedSegment.text) = _
      simp only [List.map_cons]
      rw [intercalate_glue, intercalate_cons_cons]
    · rw [refineAux, if_neg h]
      obtain ⟨c, out, heq, -, -⟩ := refineAux_head g s rest
      have htext := ih s
      rw [heq] at htext ⊢
      simp only [List.map_cons]
      rw [intercalate_cons_cons, intercalate_cons_cons]
      simp only [List.map_cons] at htext
      rw [htext]

/-! ## Claim theorems -/

/-- Claim C1: for every transcript span and non-empty diarization sequence,
`find_speaker_at_time` returns the speaker of the diarization segment with
maximal overlap `max(0, min(T.end, D.end) - max(T.start, D.start))`, the first
such segment winning ties (every earlier segment has strictly smaller
overlap); a positive-length span contained in exactly one diarization segment
gets that segment's speaker; and on `T=[4,6]`, `A=[0,5]→SPK0`, `B=[5,10]→SPK1`
the result is `SPK0`. -/
theorem find_speaker_max_overlap :
    (∀ (s e : ℚ) (dd : List DiarizationSegment), dd ≠ [] →
      ∃ i : Fin dd.length,
        find_speaker_at_time s e dd = (dd.get i).speaker ∧
        (∀ j : Fin dd.length, overlapAmount s e (dd.get j) ≤ overlapAmount s e (dd.get i)) ∧
        (∀ j : Fin dd.length, (j:ℕ) < (i:ℕ) →
          overlapAmount s e (dd.get j) < overlapAmount s e (dd.get i))) ∧
    (∀ (s e : ℚ) (dd : List DiarizationSegment) (i : Fin dd.length),
      s < e → (dd.get i).start ≤ s → e ≤ (dd.get i).stop →
      (∀ j : Fin dd.length, j ≠ i → ¬((dd.get j).start ≤ s ∧ e ≤ (dd.get j).stop)) →
      find_speaker_at_time s e dd = (dd.get i).speaker) ∧
    find_speaker_at_time 4 6
      [{ start := 0, stop := 5, speaker := "SPK0", duration := 5 },
       { start := 5, stop := 10, speaker := "SPK1", duration := 5 }] = "SPK0" := by
  have main : ∀ (s e : ℚ) (dd : List DiarizationSegment), dd ≠ [] →
      ∃ i : Fin dd.length,
        find_speaker_at_time s e dd = (dd.get i).speaker ∧
        (∀ j : Fin dd.length, overlapAmount s e (dd.get j) ≤ overlapAmount s e (dd.get i)) ∧
        (∀ j : Fin dd.length, (j:ℕ) < (i:ℕ) →
          overlapAmount s e (dd.get j) < overlapAmount s e (dd.get i)) := by
    intro s e dd hne
    match dd with
    | d0 :: rest =>
      rcases foldl_bestStep_spec s e (d0 :: rest) 0 d0.speaker with
        ⟨heq, hall⟩ | ⟨i, hlt, heq, hbefore, hmax⟩
      · refine ⟨⟨0, by simp⟩, ?_, ?_, ?_⟩
        · show (List.foldl (bestStep s e) (0, d0.speaker) (d0 :: rest)).2 = _
          rw [heq]
          rfl
        · intro j
          have h0 : overlapAmount s e ((d0 :: rest).get ⟨0, by simp⟩) = 0 :=
            le_antisymm (hall _ (List.get_mem _ _ _)) (overlapAmount_nonneg _ _ _)
          rw [h0]
          exact hall _ (List.get_mem _ _ _)
        · intro j hj
          simp at hj
      · refine ⟨i, ?_, hmax, hbefore⟩
        show (List.foldl (bestStep s e) (0, d0.speaker) (d0 :: rest)).2 = _
        rw [heq]
  refine ⟨main, ?_, ?_⟩
  · intro s e dd i hse hstart hstop huniq
    have hovi : overlapAmount s e (dd.get i) = e - s := by
      rw [overlapAmount, min_eq_left hstop, max_eq_left hstart]
      exact max_eq_right (by linarith)
    have hne : dd ≠ [] :=
      List.length_pos.1 (Nat.lt_of_le_of_lt (Nat.zero_le _) i.isLt)
    obtain ⟨i0, hres, hmax, hbefore⟩ := main s e dd hne
    have hi0 : i0 = i := by
      by_contra hno
      have hj := huniq i0 hno
      have hlt : overlapAmount s e (dd.get i0) < e - s := by
        rw [overlapAmount]
        rcases not_and_or.1 hj with hj1 | hj2
        · have : s < (dd.get i0).start := lt_of_not_le hj1
          have h1 : min e (dd.get i0).stop - max s (dd.get i0).start ≤
              e - (dd.get i0).start := by
            have := min_le_left e (dd.get i0).stop
            have := le_max_right s (dd.get i0).start
            linarith
          have h2 : (0:ℚ) < e - s := by linarith
          rcases max_cases 0 (min e (dd.get i0).stop - max s (dd.get i0).start) with
            ⟨hc, _⟩ | ⟨hc, _⟩ <;> rw [hc] <;> linarith
        · have : (dd.get i0).stop < e := lt_of_not_le hj2
          have h1 : min e (dd.get i0).stop - max s (dd.get i0).start ≤
              (dd.get i0).stop - s := by
            have := min_le_right e (dd.get i0).stop
            have := le_max_left s (dd.get i0).start
            linarith
          have h2 : (0:ℚ) < e - s := by linarith
          rcases max_cases 0 (min e (dd.get i0).stop - max s (dd.get i0).start) with
            ⟨hc, _⟩ | ⟨hc, _⟩ <;> rw [hc] <;> linarith
      have := hmax i
      rw [hovi] at this
      linarith
    rw [hres, hi0]
  · norm_num [find_speaker_at_time, bestStep, overlapAmount]

/-- Witness for C1: the span `[1,2]` is fully contained in the first of the
two diarization segments and in no other, so it receives that speaker. -/
theorem find_speaker_max_overlap_witness :
    find_speaker_at_time 1 2
      [{ start := 0, stop := 5, speaker := "SPK_X", duration := 5 },
       { start := 6, stop := 10, speaker := "SPK_Y", duration := 4 }] = "SPK_X" := by
  have h := find_speaker_max_overlap.2.1 1 2
    [{ start := 0, stop := 5, speaker := "SPK_X", duration := 5 },
     { start := 6, stop := 10, speaker := "SPK_Y", duration := 4 }]
    ⟨0, by simp⟩ (by norm_num) (by norm_num) (by norm_num)
    (by
      intro j hj
      fin_cases j
      · simp at hj
      · norm_num)
  simpa using h

/-- Claim C2: `merge_transcript_with_diarization` produces exactly one
`MergedSegment` per input `TranscriptSegment`, in order, and the `i`-th
output's confidence is `1 - no_speech_prob` of the `i`-th input, or `1` when
the input has no `no_speech_prob` field. -/
theorem merge_count_and_confidence (ts : List TranscriptSegment)
    (dd : List DiarizationSegment) :
    (merge_transcript_with_diarization ts dd).length = ts.length ∧
    ∀ i : ℕ,
      ((merge_transcript_with_diarization ts dd)[i]?).map
          (fun m => (m.text, m.confidence)) =
        (ts[i]?).map
          (fun seg => (seg.text,
            match seg.no_speech_prob with
            | some p => 1 - p
            | none => (1 : ℚ))) := by
  constructor
  · simp [merge_transcript_with_diarization]
  · intro i
    rw [merge_transcript_with_diarization, List.getElem?_map]
    cases h : ts[i]? with
    | none => rfl
    | some seg =>
      cases hp : seg.no_speech_prob <;> simp [hp]

/-- Claim C3: `refine_speaker_boundaries` is idempotent for any fixed
minimum-gap value. -/
theorem refine_idempotent (X : List MergedSegment) (g : ℚ) :
    refine_speaker_boundaries (refine_speaker_boundaries X g) g =
      refine_speaker_boundaries X g := by
  cases X with
  | nil => rfl
  | cons x rest =>
    have hch := refineAux_chain g x rest
    obtain ⟨c, out, heq, -, -⟩ := refineAux_head g x rest
    rw [refine_speaker_boundaries, heq, refine_speaker_boundaries,
      refineAux_of_chain g c out (heq ▸ hch), ← heq]

/-- Claim C8: `refine_speaker_boundaries` never lengthens the sequence, the
concatenation of the word lists is preserved exactly, the texts joined by
single spaces are preserved, adjacent output segments never satisfy the merge
condition (segments merged only when same speaker and gap below the minimum),
and a merge keeps the running segment's speaker while extending its end to
the absorbed segment's end. -/
theorem refine_preserves_content (X : List MergedSegment) (g : ℚ) :
    (refine_speaker_boundaries X g).length ≤ X.length ∧
    ((refine_speaker_boundaries X g).map MergedSegment.words).flatten =
      (X.map MergedSegment.words).flatten ∧
    String.intercalate " " ((refine_speaker_boundaries X g).map MergedSegment.text) =
      String.intercalate " " (X.map MergedSegment.text) ∧
    List.Chain' (noMerge g) (refine_speaker_boundaries X g) ∧
    (∀ cur s : MergedSegment, (mergeInto cur s).end_seconds = s.end_seconds ∧
      (mergeInto cur s).stop = s.stop ∧
      (mergeInto cur s).speaker = cur.speaker ∧
      (mergeInto cur s).text = cur.text ++ " " ++ s.text ∧
      (mergeInto cur s).words = cur.words ++ s.words) := by
  cases X with
  | nil => exact ⟨le_refl _, rfl, rfl, trivial, fun cur s => ⟨rfl, rfl, rfl, rfl, rfl⟩⟩
  | cons x rest =>
    refine ⟨?_, ?_, ?_, refineAux_chain g x rest, fun cur s => ⟨rfl, rfl, rfl, rfl, rfl⟩⟩
    · simpa using refineAux_length g x rest
    · simpa using refineAux_words g x rest
    · exact refineAux_text g x rest

/-- Claim C9: for a nonnegative timestamp, `format_timestamp_ms` renders
exactly the zero-padded `HH:MM:SS.mmm` decomposition of `⌊1000·q⌋` total
milliseconds — i.e. the displayed value is `q` truncated (not rounded) to the
millisecond below — and the two anchor values from the specification hold. -/
theorem format_timestamp_truncation (q : ℚ) (hq : 0 ≤ q) :
    ((⌊1000 * q⌋₊ : ℚ) ≤ 1000 * q ∧ 1000 * q < ⌊1000 * q⌋₊ + 1) ∧
    format_timestamp_ms q =
      zeroPadNat 2 (⌊1000 * q⌋₊ / 3600000) ++ ":" ++
        zeroPadNat 2 (⌊1000 * q⌋₊ / 60000 % 60) ++ ":" ++
        zeroPadNat 2 (⌊1000 * q⌋₊ / 1000 % 60) ++ "." ++
        zeroPadNat 3 (⌊1000 * q⌋₊ % 1000) ∧
    format_timestamp_ms (3725 + 1/8) = "01:02:05.125" ∧
    format_timestamp_ms 0 = "00:00:00.000" := by
  have h1000 : (0:ℚ) ≤ 1000 * q := by positivity
  set n := ⌊1000 * q⌋₊ with hn
  have hfq : ⌊q⌋₊ = n / 1000 := by
    have h := Nat.floor_div_nat (1000 * q) 1000
    rw [show (((1000:ℕ)):ℚ) = (1000:ℚ) by norm_num,
        show (1000:ℚ) * q / 1000 = q by ring] at h
    rw [hn, ← h]
  have hqfloor : ⌊q⌋ = ((n / 1000 : ℕ) : ℤ) := by
    rw [← Int.natCast_floor_eq_floor hq, hfq]
  have hdiv : ∀ m : ℕ, 0 < m → ⌊q / (m:ℚ)⌋ = ((n / (1000 * m) : ℕ) : ℤ) := by
    intro m hm
    have hm0 : (0:ℚ) < (m:ℚ) := by exact_mod_cast hm
    have h0 : (0:ℚ) ≤ q / m := by positivity
    rw [← Int.natCast_floor_eq_floor h0, Nat.floor_div_nat, hfq, Nat.div_div_eq_div_mul]
  have hH : ⌊q / (3600:ℚ)⌋ = ((n / 3600000 : ℕ) : ℤ) := by
    have h := hdiv 3600 (by norm_num)
    rw [show (((3600:ℕ)):ℚ) = (3600:ℚ) by norm_num] at h
    simpa using h
  have hmod : ∀ m : ℕ, 0 < m →
      ⌊pyMod q (m:ℚ)⌋ = ((n / 1000 - m * (n / (1000 * m)) : ℕ) : ℤ) := by
    intro m hm
    have hsub : pyMod q (m:ℚ) = q - (((m * (n / (1000 * m)) : ℕ) : ℤ) : ℚ) := by
      rw [pyMod, hdiv m hm]
      push_cast
      ring
    have hle : m * (n / (1000 * m)) ≤ n / 1000 := by
      rw [← Nat.div_div_eq_div_mul, Nat.mul_comm]
      exact Nat.div_mul_le_self _ m
    rw [hsub, Int.floor_sub_int, hqfloor]
    push_cast [hle]
    ring
  have hmodnn : ∀ m : ℕ, 0 < m → (0:ℚ) ≤ pyMod q (m:ℚ) := by
    intro m hm
    have hm0 : (0:ℚ) < (m:ℚ) := by exact_mod_cast hm
    have h := Int.sub_floor_div_mul_nonneg q hm0
    rw [pyMod]
    nlinarith [h]
  have hmodfloor : ∀ m : ℕ, 0 < m →
      ⌊pyMod q (m:ℚ)⌋₊ = n / 1000 - m * (n / (1000 * m)) := by
    intro m hm
    rw [← Int.floor_toNat, hmod m hm, Int.toNat_natCast]
  have hM : ⌊pyMod q (3600:ℚ) / 60⌋ = ((n / 60000 % 60 : ℕ) : ℤ) := by
    have h36 : ((3600:ℕ):ℚ) = (3600:ℚ) := by norm_num
    have hr0 : (0:ℚ) ≤ pyMod q (3600:ℚ) := by rw [← h36]; exact hmodnn 3600 (by norm_num)
    have h0 : (0:ℚ) ≤ pyMod q (3600:ℚ) / 60 := by positivity
    rw [← Int.natCast_floor_eq_floor h0]
    congr 1
    have h := Nat.floor_div_nat (pyMod q (3600:ℚ)) 60
    rw [show (((60:ℕ)):ℚ) = (60:ℚ) by norm_num] at h
    rw [h, ← h36, hmodfloor 3600 (by norm_num)]
    omega
  have hS : ⌊pyMod q (60:ℚ)⌋ = ((n / 1000 % 60 : ℕ) : ℤ) := by
    rw [show (60:ℚ) = ((60:ℕ):ℚ) by norm_num, hmod 60 (by norm_num)]
    congr 1
    omega
  have hMS : ⌊pyMod q (1:ℚ) * 1000⌋ = ((n % 1000 : ℕ) : ℤ) := by
    have hq1 : ⌊q / (1:ℚ)⌋ = ⌊q⌋ := by rw [div_one]
    have hsub : pyMod q (1:ℚ) * 1000 = 1000 * q - ((1000 * ⌊q⌋ : ℤ) : ℚ) := by
      rw [pyMod, hq1]
      push_cast
      ring
    rw [hsub, Int.floor_sub_int, hqfloor]
    have hfl : ⌊(1000:ℚ) * q⌋ = (n : ℤ) := by
      rw [← Int.natCast_floor_eq_floor h1000, hn]
    rw [hfl]
    push_cast
    omega
  refine ⟨⟨Nat.floor_le h1000, by exact_mod_cast Nat.lt_floor_add_one (1000 * q)⟩,
    ?_, ?_, ?_⟩
  · show zeroPad 2 ⌊q / 3600⌋ ++ ":" ++ zeroPad 2 ⌊pyMod q 3600 / 60⌋ ++ ":" ++
        zeroPad 2 ⌊pyMod q 60⌋ ++ "." ++ zeroPad 3 ⌊pyMod q 1 * 1000⌋ = _
    rw [hH, hM, hS, hMS, zeroPad_natCast, zeroPad_natCast, zeroPad_natCast, zeroPad_natCast]
  · norm_num [format_timestamp_ms, pyMod, zeroPad, zeroPadNat]
    rfl
  · norm_num [format_timestamp_ms, pyMod, zeroPad, zeroPadNat]
    rfl

/-- Witness for C9: the truncation theorem applied at `q = 3725.125`. -/
theorem format_timestamp_truncation_witness :
    format_timestamp_ms (3725 + 1/8) = "01:02:05.125" :=
  (format_timestamp_truncation (3725 + 1/8) (by norm_num)).2.2.1

/-- Claim C7: with an empty diarization sequence every fused segment is
labeled `SPEAKER_0`; in particular all three outputs for any three transcript
segments. -/
theorem merge_empty_diarization :
    (∀ ts : List TranscriptSegment,
      (merge_transcript_with_diarization ts []).map MergedSegment.speaker =
        List.replicate ts.length "SPEAKER_0") ∧
    (∀ t1 t2 t3 : TranscriptSegment,
      (merge_transcript_with_diarization [t1, t2, t3] []).map MergedSegment.speaker =
        ["SPEAKER_0", "SPEAKER_0", "SPEAKER_0"]) := by
  have h : ∀ ts : List TranscriptSegment,
      (merge_transcript_with_diarization ts []).map MergedSegment.speaker =
        List.replicate ts.length "SPEAKER_0" := by
    intro ts
    induction ts with
    | nil => rfl
    | cons t ts ih =>
      simpa [merge_transcript_with_diarization, find_speaker_at_time,
        List.replicate_succ] using ih
  exact ⟨h, fun t1 t2 t3 => h [t1, t2, t3]⟩

/-- Counterexample to claim C5: for an audio file of duration 50 s, the
dependency-missing fallback still returns the single segment `[0, 100]`, whose
end is not the file's duration. -/
theorem diarize_unavailable_counterexample :
    ∃ seg : DiarizationSegment, diarize_fallback_unavailable 50 = [seg] ∧
      seg.speaker = "SPEAKER_0" ∧ seg.start = 0 ∧ seg.stop ≠ 50 := by
  refine ⟨_, rfl, rfl, rfl, ?_⟩
  norm_num [diarize_fallback_unavailable]

/-- Claim C5 as amended: when a required capability is unavailable the
fallback returns, without raising, exactly one segment labeled `SPEAKER_0`
covering the fixed placeholder range `[0, 100]`, irrespective of the file's
actual duration. -/
theorem diarize_unavailable_fixed_span (d : ℚ) :
    diarize_fallback_unavailable d =
      [{ start := 0, stop := 100, speaker := "SPEAKER_0", duration := 100 }] := rfl

/-- Claim C6: with no expected speaker count the cluster count is
`min(5, max(2, n // 10))` capped at the interval count `n`, hence never
exceeds `n` (and is at most 3 for 3 intervals); a single surviving interval is
labeled `SPEAKER_0` with the clusterer never consulted (the result does not
depend on `fit_predict`). -/
theorem fallback_cluster_bounds (n : ℕ) (k : ℕ)
    (fit_predict : Nat → List (ℚ × ℚ) → List Nat) (seg : ℚ × ℚ) :
    fallback_num_speakers none n = min (min 5 (max 2 (n / 10))) n ∧
    fallback_num_speakers none n ≤ n ∧
    fallback_num_speakers none 3 ≤ 3 ∧
    fallback_assign_speakers fit_predict k [seg] =
      [{ start := seg.1, stop := seg.2, speaker := "SPEAKER_0",
         duration := seg.2 - seg.1 }] := by
  refine ⟨rfl, ?_, ?_, ?_⟩
  · simp [fallback_num_speakers]
  · decide
  · simp [fallback_assign_speakers]

/-- Counterexample to claim C4: both the bot-capture mapping and the calendar
mapping are non-empty, yet with two detected speakers the single-entry capture
mapping is discarded and rebuilt from the manual mapping UI, so the final
mapping differs from the capture mapping. -/
theorem resolver_counterexample :
    resolve_speaker_mapping true [("SPEAKER_0", "Alice")] [("SPEAKER_0", "Bob")] [] [] []
        2 [("SPEAKER_0", "Carol"), ("SPEAKER_1", "Dan")] ≠
      [("SPEAKER_0", "Alice")] := by
  decide

/-- Claim C4 as amended: the automatic sources form a strict priority chain —
a non-empty bot capture that covers at least the number of detected unique
speakers is final (the calendar source is never used), and within
`get_meeting_participants` each of calendar, zoom, teams and the manual
participant string is used only when all earlier sources returned nothing. -/
theorem resolver_priority_amended
    (botCapture calendar zoomList teams manualMapping : List (String × String))
    (dps : List String) (u : Nat) :
    (botCapture ≠ [] → u ≤ botCapture.length →
      resolve_speaker_mapping true botCapture calendar zoomList teams dps u
        manualMapping = botCapture) ∧
    (calendar ≠ [] → get_meeting_participants calendar zoomList teams dps = calendar) ∧
    (calendar = [] → zoomList ≠ [] →
      get_meeting_participants calendar zoomList teams dps = zoomList) ∧
    (calendar = [] → zoomList = [] → teams ≠ [] →
      get_meeting_participants calendar zoomList teams dps = teams) ∧
    (calendar = [] → zoomList = [] → teams = [] → dps ≠ [] →
      get_meeting_participants calendar zoomList teams dps = speakerLabelMapping dps) := by
  refine ⟨?_, ?_, ?_, ?_, ?_⟩
  · intro hne hle
    simp [resolve_speaker_mapping, hne, Nat.not_lt.2 hle]
  · intro h1; simp [get_meeting_participants, h1]
  · intro h1 h2; simp [get_meeting_participants, h1, h2]
  · intro h1 h2 h3; simp [get_meeting_participants, h1, h2, h3]
  · intro h1 h2 h3 h4; simp [get_meeting_participants, h1, h2, h3, h4]

/-- Witness for the amended C4: a one-entry capture mapping with one detected
speaker survives untouched even though the calendar mapping is non-empty. -/
theorem resolver_priority_amended_witness :
    resolve_speaker_mapping true [("SPEAKER_0", "Alice")] [("SPEAKER_0", "Bob")] [] [] []
        1 [] = [("SPEAKER_0", "Alice")] :=
  (resolver_priority_amended [("SPEAKER_0", "Alice")] [("SPEAKER_0", "Bob")] [] [] [] [] 1).1
    (by simp) (by simp)

/-- Claim C10: when a transcript span overlaps no diarization segment at all,
`find_speaker_at_time` returns the speaker of the first diarization segment;
in the concrete gap example that is `SPK_A`, which is neither `SPEAKER_0` nor
the temporally nearest segment's speaker `SPK_B`. -/
theorem find_speaker_no_overlap_first :
    (∀ (s e : ℚ) (d0 : DiarizationSegment) (rest : List DiarizationSegment),
      (∀ d ∈ d0 :: rest, overlapAmount s e d = 0) →
      find_speaker_at_time s e (d0 :: rest) = d0.speaker) ∧
    find_speaker_at_time (17/2) 9
      [{ start := 0, stop := 1, speaker := "SPK_A", duration := 1 },
       { start := 10, stop := 11, speaker := "SPK_B", duration := 1 }] = "SPK_A" ∧
    ("SPK_A" : String) ≠ "SPEAKER_0" ∧ ("SPK_A" : String) ≠ "SPK_B" := by
  refine ⟨?_, ?_, ?_, ?_⟩
  · intro s e d0 rest hzero
    rcases foldl_bestStep_spec s e (d0 :: rest) 0 d0.speaker with
      ⟨heq, _⟩ | ⟨i, hlt, _, _, _⟩
    · show (List.foldl (bestStep s e) (0, d0.speaker) (d0 :: rest)).2 = _
      rw [heq]
    · have h0 := hzero _ (List.get_mem (d0 :: rest) _ i.isLt)
      rw [h0] at hlt
      exact absurd hlt (lt_irrefl 0)
  · norm_num [find_speaker_at_time, bestStep, overlapAmount]
  · decide
  · decide

/-- Witness for C10: the gap span `[8.5, 9]` overlaps neither segment, and the
first segment's speaker is returned. -/
theorem find_speaker_no_overlap_first_witness :
    find_speaker_at_time (17/2) 9
      [{ start := 0, stop := 1, speaker := "SPK_A", duration := 1 },
       { start := 10, stop := 11, speaker := "SPK_B", duration := 1 }] = "SPK_A" := by
  have h := find_speaker_no_overlap_first.1 (17/2) 9
    { start := 0, stop := 1, speaker := "SPK_A", duration := 1 }
    [{ start := 10, stop := 11, speaker := "SPK_B", duration := 1 }]
    (by
      intro d hd
      fin_cases hd <;> norm_num [overlapAmount])
  simpa using h

end VCS
